import Mathlib

/-!
Verification development for the nofx-lite risk-and-decision governance
pipeline.  The Go sources (trader/sizing.go, decision/engine.go) are shallowly
embedded: float64 becomes ℚ, Go `int` becomes ℤ, `time.Time`/`time.Duration`
become ℤ nanoseconds, Go maps become association lists with Go's
zero-value-on-miss read semantics.  Division by zero yields 0 in ℚ (Go floats
would give ±Inf/NaN); this difference is only reachable on degenerate inputs
and is noted where relevant.  `math.Exp` is kept abstract as a function
parameter `expQ : ℚ → ℚ`, so every theorem about `ComputeAdjustedSize` holds
for any model of the exponential.
-/

namespace NofxLite

/-! ### Sizing Engine — trader/sizing.go, `ComputeAdjustedSize` (lines 15-83)

The function is embedded in the same stages the Go function performs them:
performance/confidence/cooldown multiplier (lines 20-44), relative-change
clamp (lines 46-56), margin-safety clamp (lines 58-76), floor at 0
(lines 78-80). -/

/-- Performance multiplier with confidence gating and cooldown
(sizing.go lines 20-42). -/
def perfMultiplier (winRate profitFactor confidence : ℚ)
    (recentLossCooldown : Bool) : ℚ :=
  let m : ℚ :=
    if winRate ≥ 60 ∧ profitFactor ≥ 1.50 then 1.10
    else if winRate ≥ 55 ∧ profitFactor ≥ 1.30 then 1.05
    else if winRate < 45 ∨ profitFactor < 1.00 then 0.65
    else 1.0
  let m :=
    if confidence > 0 then
      if confidence < 50 then m * 0.75
      else if confidence < 60 then m * 0.85
      else m
    else m
  if recentLossCooldown then m * 0.60 else m

/-- Relative-change clamp: ratio newSize/base limited to [0.50, 1.25]
(sizing.go lines 46-56). -/
def relChangeClamp (base newSize : ℚ) : ℚ :=
  if base > 0 then
    let change := newSize / base
    if change > 1.25 then base * 1.25
    else if change < 0.50 then base * 0.50
    else newSize
  else newSize

/-- Margin-safety clamp (sizing.go lines 58-76): limit = available/(1/leverage
+ feeRate); logistic compression near the limit, then a hard cap at the limit.
`expQ` abstracts Go's `math.Exp`. -/
def marginSafetyClamp (expQ : ℚ → ℚ) (leverage : ℤ)
    (available feeRate newSize : ℚ) : ℚ :=
  if leverage > 0 ∧ available > 0 then
    let denom := 1 / (leverage : ℚ) + feeRate
    let limit := available / denom
    if limit > 0 then
      let cushion : ℚ := 0.92
      let effLimit := limit * cushion
      let ns :=
        if newSize > effLimit then
          let ratio := newSize / limit
          let compression := 0.92 + 0.08 / (1 + expQ (12 * (ratio - 0.95)))
          limit * compression
        else newSize
      if ns > limit then limit else ns
    else newSize
  else newSize

/-- ComputeAdjustedSize (sizing.go lines 15-83): adjusted USD position size
from performance, confidence, cooldown and margin constraints. -/
def ComputeAdjustedSize (expQ : ℚ → ℚ) (base : ℚ) (leverage : ℤ)
    (available feeRate winRate profitFactor confidence : ℚ)
    (recentLossCooldown : Bool) : ℚ :=
  if base ≤ 0 then base
  else
    let newSize := base * perfMultiplier winRate profitFactor confidence recentLossCooldown
    let newSize := relChangeClamp base newSize
    let newSize := marginSafetyClamp expQ leverage available feeRate newSize
    if newSize < 0 then 0 else newSize

/-! ### Risk-Pause State Machine — trader/sizing.go, `CheckAndApplyRiskPause`
(lines 709-758) and the daily reset in `runCycle` (lines 541-547). -/

/-- Nanoseconds per minute (Go `time.Minute`). -/
def minuteNs : ℤ := 60 * 1000000000

/-- Nanoseconds per hour (Go `time.Hour`). -/
def hourNs : ℤ := 3600 * 1000000000

/-- Risk configuration fields of `AutoTraderConfig` used by the risk pause. -/
structure RiskConfig where
  maxDailyLoss : ℚ
  maxDrawdown : ℚ
  stopTradingTime : ℤ
deriving DecidableEq, Repr

/-- The risk-tracking fields of `AutoTrader` mutated by `CheckAndApplyRiskPause`
and the daily reset. -/
structure RiskState where
  dayStartEquity : ℚ
  equityPeak : ℚ
  dailyPnL : ℚ
  stopUntil : ℤ
  lastResetTime : ℤ
deriving DecidableEq, Repr

/-- Daily loss percent as computed inside `CheckAndApplyRiskPause`
(sizing.go lines 711-728), after the lazy day-start initialization. -/
def dailyLossPctOf (s : RiskState) (currentEquity : ℚ) : ℚ :=
  let dayStart := if s.dayStartEquity ≤ 0 then currentEquity else s.dayStartEquity
  let dailyPnL := currentEquity - dayStart
  if dayStart > 0 ∧ dailyPnL < 0 then (-dailyPnL / dayStart) * 100 else 0

/-- Drawdown percent from the (just-updated) equity peak as computed inside
`CheckAndApplyRiskPause` (sizing.go lines 719-734). -/
def drawdownPctOf (s : RiskState) (currentEquity : ℚ) : ℚ :=
  let equityPeak := if currentEquity > s.equityPeak then currentEquity else s.equityPeak
  if equityPeak > 0 ∧ currentEquity < equityPeak then
    ((equityPeak - currentEquity) / equityPeak) * 100
  else 0

/-- CheckAndApplyRiskPause (sizing.go lines 709-758): lazily initialize the
day-start equity, update daily PnL and the equity peak, and pause (set
stopUntil) when a configured daily-loss or drawdown limit is breached.  The Go
code applies the two pause branches in sequence, each setting
`stopUntil = now + StopTradingTime`; both are modelled in the same order. -/
def CheckAndApplyRiskPause (cfg : RiskConfig) (s : RiskState)
    (currentEquity : ℚ) (now : ℤ) : RiskState × Bool :=
  let dayStart := if s.dayStartEquity ≤ 0 then currentEquity else s.dayStartEquity
  let dailyPnL := currentEquity - dayStart
  let equityPeak := if currentEquity > s.equityPeak then currentEquity else s.equityPeak
  let dailyLossPct := if dayStart > 0 ∧ dailyPnL < 0 then (-dailyPnL / dayStart) * 100 else 0
  let drawdownPct :=
    if equityPeak > 0 ∧ currentEquity < equityPeak then
      ((equityPeak - currentEquity) / equityPeak) * 100
    else 0
  let pause1 : Prop := cfg.maxDailyLoss > 0 ∧ dailyLossPct ≥ cfg.maxDailyLoss
  let pause2 : Prop := cfg.maxDrawdown > 0 ∧ drawdownPct ≥ cfg.maxDrawdown
  let stopUntil1 := if pause1 then now + cfg.stopTradingTime else s.stopUntil
  let stopUntil2 := if pause2 then now + cfg.stopTradingTime else stopUntil1
  ({ s with
      dayStartEquity := dayStart
      dailyPnL := dailyPnL
      equityPeak := equityPeak
      stopUntil := stopUntil2 },
   if pause1 ∨ pause2 then true else false)

/-- The daily reset at the top of `runCycle` (sizing.go lines 541-547): when
more than 24h passed since the last reset, zero dailyPnL and refresh the
reset timestamp.  Nothing else of the risk state is touched. -/
def dailyReset (s : RiskState) (now : ℤ) : RiskState :=
  if now - s.lastResetTime > 24 * hourNs then
    { s with dailyPnL := 0, lastResetTime := now }
  else s

/-- Folding `CheckAndApplyRiskPause` over a sequence of (equity, time)
observations, as successive cycles do. -/
def runRiskPause (cfg : RiskConfig) (s : RiskState) : List (ℚ × ℤ) → RiskState
  | [] => s
  | (e, t) :: rest => runRiskPause cfg (CheckAndApplyRiskPause cfg s e t).1 rest

/-! ### Drawdown Monitor — trader/sizing.go, `checkPositionDrawdown`
(lines 1850-1933), `UpdatePeakPnL` (lines 1971-1985), `ClearPeakPnLCache`
(lines 1988-1994).

`checkPositionDrawdown` acts independently on each position: it reads the
cached peak PnL for the position key (symbol_side), updates the cache with
the current PnL, computes the drawdown from the (pre-update) peak, and
maintains a consecutive-breach counter.  `drawdownStep` is the per-position
projection of one monitor check; the peak-cache entry and the breach counter
of one position are the state.  The success path of the emergency close is
modelled (close succeeds, cache cleared, counter reset), matching lines
1915-1922. -/

/-- The per-position monitor state: the position's `peakPnLCache` entry
(none = absent), its `drawdownBreachCount` entry, and the configured
`drawdownBreachWindow` (3 in `NewAutoTrader`). -/
structure DrawdownState where
  peak : Option ℚ
  count : ℕ
  window : ℕ
deriving DecidableEq, Repr

/-- UpdatePeakPnL (sizing.go lines 1971-1985) projected on one key: ratchet
the cached peak up to the current PnL, initializing on first observation. -/
def updatePeakEntry (peak : Option ℚ) (currentPnLPct : ℚ) : Option ℚ :=
  match peak with
  | some p => if currentPnLPct > p then some currentPnLPct else some p
  | none => some currentPnLPct

/-- The breach condition of a monitor check (sizing.go lines 1889-1905):
profit above 5% and a drawdown of at least 40% from the cached peak (with the
peak initialized to the current PnL when the cache entry is absent, which
forces a zero drawdown). -/
def breachCond (s : DrawdownState) (currentPnLPct : ℚ) : Prop :=
  let peakPnLPct := match s.peak with | some p => p | none => currentPnLPct
  let drawdownPct :=
    if peakPnLPct > 0 ∧ currentPnLPct < peakPnLPct then
      ((peakPnLPct - currentPnLPct) / peakPnLPct) * 100
    else 0
  currentPnLPct > 5 ∧ drawdownPct ≥ 40

instance (s : DrawdownState) (c : ℚ) : Decidable (breachCond s c) := by
  unfold breachCond; infer_instance

/-- One monitor check for one position (sizing.go lines 1858-1932).  Returns
the new state and whether an emergency full close was issued.  On breach the
counter is incremented and the close fires when it reaches the window
(`remaining = window - count ≤ 0`); afterwards the peak-cache entry is
cleared and the counter reset (success path of lines 1915-1922).  On
non-breach the counter resets to 0. -/
def drawdownStep (s : DrawdownState) (currentPnLPct : ℚ) : DrawdownState × Bool :=
  let newPeak := updatePeakEntry s.peak currentPnLPct
  if breachCond s currentPnLPct then
    let c := s.count + 1
    if s.window ≤ c then
      ({ peak := none, count := 0, window := s.window }, true)
    else
      ({ peak := newPeak, count := c, window := s.window }, false)
  else
    ({ peak := newPeak, count := 0, window := s.window }, false)

/-! ### Decision data model — decision/engine.go, `Decision` (lines 96-115). -/

/-- The AI trading decision record (engine.go lines 96-115).  Fields absent
from a JSON payload keep their Go zero values. -/
structure Decision where
  symbol : String
  action : String
  leverage : ℤ
  positionSizeUSD : ℚ
  stopLoss : ℚ
  takeProfit : ℚ
  newStopLoss : ℚ
  newTakeProfit : ℚ
  closePercentage : ℚ
  confidence : ℤ
  riskUSD : ℚ
  reasoning : String
deriving DecidableEq, Repr

/-- The zero value of `Decision`. -/
def zeroDecision : Decision :=
  { symbol := "", action := "", leverage := 0, positionSizeUSD := 0,
    stopLoss := 0, takeProfit := 0, newStopLoss := 0, newTakeProfit := 0,
    closePercentage := 0, confidence := 0, riskUSD := 0, reasoning := "" }

/-! ### Decision Sequencer — trader/sizing.go, `sortDecisionsByPriority`
(lines 1624-1659).

The Go function copies the slice and then runs the double loop
`for i { for j > i { if prio(a[i]) > prio(a[j]) swap(a[i], a[j]) } }`.
`selectSwap h t` is the functional form of one inner sweep: it carries the
current front element `h` through `t`, swapping whenever the carried element
has strictly greater priority than the element under scan, and returns the
final front element together with the rest of the slice in the order the
swaps leave it.  `swapSort` runs the sweeps for successive `i`, exactly as
the outer loop does. -/

/-- getActionPriority (sizing.go lines 1630-1643). -/
def getActionPriority (action : String) : ℕ :=
  match action with
  | "close_long" | "close_short" | "partial_close" => 1
  | "update_stop_loss" | "update_take_profit" => 2
  | "open_long" | "open_short" => 3
  | "hold" | "wait" => 4
  | _ => 999

/-- One inner sweep of the swap sort (sizing.go lines 1650-1656 for one
fixed `i`): returns the element left at position `i` and the tail slice. -/
def selectSwap (h : Decision) : List Decision → Decision × List Decision
  | [] => (h, [])
  | y :: ys =>
    if getActionPriority h.action > getActionPriority y.action then
      let r := selectSwap y ys
      (r.1, h :: r.2)
    else
      let r := selectSwap h ys
      (r.1, y :: r.2)

theorem selectSwap_length (h : Decision) (l : List Decision) :
    ((selectSwap h l).2).length = l.length := by
  induction l generalizing h with
  | nil => rfl
  | cons y ys ih =>
    simp only [selectSwap]
    split
    · simp [ih]
    · simp [ih]

/-- The outer loop of the swap sort (sizing.go lines 1650-1656): one sweep
per outer index.  The first argument counts the remaining outer iterations;
`swapSort` supplies the list length, which dominates the Go loop's n-1
iterations (each sweep keeps the tail length, so the recursion consumes
exactly one iteration per element). -/
def swapSortAux : ℕ → List Decision → List Decision
  | _, [] => []
  | 0, l => l
  | n + 1, x :: xs => (selectSwap x xs).1 :: swapSortAux n (selectSwap x xs).2

/-- The full swap sort over the copied slice. -/
def swapSort (l : List Decision) : List Decision := swapSortAux l.length l

/-- sortDecisionsByPriority (sizing.go lines 1624-1659): lists of length at
most 1 are returned unchanged, longer lists are swap-sorted by
`getActionPriority`. -/
def sortDecisionsByPriority (decisions : List Decision) : List Decision :=
  if decisions.length ≤ 1 then decisions else swapSort decisions

/-! ### Adjuster cooldown scan — trader/sizing.go,
`adjustDecisionsByPerformance` (lines 1702-1719).

For each open decision the loop walks `recentTrades` from the last element
backwards, stops at the first entry with the same symbol and side, and flags
the cooldown exactly when that entry closed within the last 90 minutes with
PnL ≤ -15%; the `break` ends the scan whether or not that entry qualifies. -/

/-- A trade outcome from the performance window (logger.TradeOutcome fields
used by the adjuster). -/
structure TradeOutcome where
  symbol : String
  side : String
  pnlPct : ℚ
  closeTime : ℤ
deriving DecidableEq, Repr

/-- The symbol+side match used by the cooldown scan. -/
def tradeMatches (sym side : String) (t : TradeOutcome) : Bool :=
  t.symbol == sym && t.side == side

/-- The recent-loss cooldown flag computed in `adjustDecisionsByPerformance`
(sizing.go lines 1707-1719) and then passed to `ComputeAdjustedSize` as
`recentLossCooldown` (line 1728): the backward scan with `break` inspects
only the last listed trade with the same symbol and side. -/
def recentLossCooldownFlag (recentTrades : List TradeOutcome)
    (sym side : String) (now : ℤ) : Bool :=
  match recentTrades.reverse.find? (tradeMatches sym side) with
  | some t => decide (t.pnlPct ≤ -15) && decide (now - t.closeTime < 90 * minuteNs)
  | none => false

/-- Side derivation for an open decision (sizing.go lines 1703-1706). -/
def openDecisionSide (action : String) : String :=
  if action == "open_short" then "short" else "long"

/-! ### Peak-PnL cache — trader/sizing.go, `UpdatePeakPnL` (lines 1971-1985)
and the read in `buildTradingContext` (lines 836-839).

The cache `peakPnLCache : map[string]float64` is modelled as an association
list with Go's map semantics: reads of absent keys yield the zero value 0. -/

/-- Go map read with zero-value default. -/
def goMapGet (m : List (String × ℚ)) (k : String) : ℚ :=
  match m.find? (fun kv => kv.1 == k) with
  | some kv => kv.2
  | none => 0

/-- Go map write (upsert). -/
def goMapPut (m : List (String × ℚ)) (k : String) (v : ℚ) : List (String × ℚ) :=
  if m.any (fun kv => kv.1 == k) then
    m.map (fun kv => if kv.1 == k then (k, v) else kv)
  else m ++ [(k, v)]

/-- UpdatePeakPnL (sizing.go lines 1971-1985): ratchet the cache entry under
the key `symbol + "_" + side` up to the current PnL percentage. -/
def UpdatePeakPnL (cache : List (String × ℚ)) (symbol side : String)
    (currentPnLPct : ℚ) : List (String × ℚ) :=
  let posKey := symbol ++ "_" ++ side
  match cache.find? (fun kv => kv.1 == posKey) with
  | some kv => if currentPnLPct > kv.2 then goMapPut cache posKey currentPnLPct else cache
  | none => goMapPut cache posKey currentPnLPct

/-- The peak-PnL percentage placed into a position snapshot by
`buildTradingContext` (sizing.go line 838): the Go code reads
`at.peakPnLCache[symbol]` — keyed by the symbol alone, not by the
position key `symbol + "_" + side` that `UpdatePeakPnL` writes. -/
def contextPeakPnLPct (cache : List (String × ℚ)) (symbol : String) : ℚ :=
  goMapGet cache symbol

/-! ### Decision Validator — decision/engine.go, `validateDecision`
(lines 945-1113) and `validateDecisions` (lines 913-920).

Error messages are abbreviated (the Go messages interpolate numbers);
`none` means the decision passed.  Market data enters through the per-symbol
map `ctx.MarketDataMap`: `CurrentPrice` and, when `LongerTermContext` is
non-nil, `ATR14`. -/

/-- The fields of `market.Data` consulted by the validator. -/
structure MarketData where
  currentPrice : ℚ
  longerTermATR14 : Option ℚ
deriving DecidableEq, Repr

/-- Lookup in `ctx.MarketDataMap`. -/
def mktLookup (mkt : List (String × MarketData)) (sym : String) : Option MarketData :=
  (mkt.find? (fun kv => kv.1 == sym)).map (fun kv => kv.2)

/-- The action whitelist (engine.go lines 947-961). -/
def validActions : List String :=
  ["open_long", "open_short", "close_long", "close_short",
   "update_stop_loss", "update_take_profit", "partial_close", "hold", "wait"]

/-- The open-decision checks of `validateDecision` (engine.go lines 964-1089):
leverage and notional caps by symbol class, minimum notional, stop/take
ordering, synthetic entry price, ATR-aware minimum distances, the dynamic
risk-reward threshold, and the optional risk budget. -/
def validateOpen (d : Decision) (accountEquity : ℚ)
    (btcEthLeverage altcoinLeverage : ℤ)
    (mkt : List (String × MarketData)) : Option String :=
  let isMajor := d.symbol == "BTCUSDT" || d.symbol == "ETHUSDT"
  let maxLeverage := if isMajor then btcEthLeverage else altcoinLeverage
  let maxPositionValue := if isMajor then accountEquity * 10 else accountEquity * 1.5
  if d.leverage ≤ 0 ∨ d.leverage > maxLeverage then some "leverage out of range"
  else if d.positionSizeUSD ≤ 0 then some "position_size_usd must be > 0"
  else if isMajor ∧ d.positionSizeUSD < 60 then some "position_size_usd too small (BTC/ETH)"
  else if ¬isMajor = true ∧ d.positionSizeUSD < 12 then some "position_size_usd too small"
  else if d.positionSizeUSD > maxPositionValue + maxPositionValue * 0.01 then
    some "position notional exceeds cap"
  else if d.stopLoss ≤ 0 ∨ d.takeProfit ≤ 0 then some "stop_loss and take_profit must be > 0"
  else if d.action = "open_long" ∧ d.stopLoss ≥ d.takeProfit then
    some "for long, stop_loss must be less than take_profit"
  else if ¬d.action = "open_long" ∧ d.stopLoss ≤ d.takeProfit then
    some "for short, stop_loss must be greater than take_profit"
  else
    let entryPrice :=
      if d.action = "open_long" then d.stopLoss + (d.takeProfit - d.stopLoss) * 0.2
      else d.stopLoss - (d.stopLoss - d.takeProfit) * 0.2
    let riskPercent :=
      if d.action = "open_long" then (entryPrice - d.stopLoss) / entryPrice * 100
      else (d.stopLoss - entryPrice) / entryPrice * 100
    let rewardPercent :=
      if d.action = "open_long" then (d.takeProfit - entryPrice) / entryPrice * 100
      else (entryPrice - d.takeProfit) / entryPrice * 100
    let riskRewardRatio := if riskPercent > 0 then rewardPercent / riskPercent else 0
    let price := match mktLookup mkt d.symbol with
      | some md => md.currentPrice
      | none => 0
    let atr14 := match mktLookup mkt d.symbol with
      | some md => match md.longerTermATR14 with | some a => a | none => 0
      | none => 0
    let minDist := 1 * atr14
    if atr14 > 0 ∧ d.action = "open_long" ∧
        (entryPrice - d.stopLoss < minDist ∨ d.takeProfit - entryPrice < minDist) then
      some "SL/TP distances below ATR14 minimum"
    else if atr14 > 0 ∧ ¬d.action = "open_long" ∧
        (d.stopLoss - entryPrice < minDist ∨ entryPrice - d.takeProfit < minDist) then
      some "SL/TP distances below ATR14 minimum"
    else
      let rrrMin :=
        if atr14 > 0 ∧ price > 0 then
          if atr14 / price < 0.01 then 2.5
          else if atr14 / price ≥ 0.02 then 3.5
          else 3.0
        else 3.0
      if riskRewardRatio < rrrMin then some "risk-reward ratio too low"
      else if d.riskUSD > 0 ∧ (riskPercent / 100) * d.positionSizeUSD > d.riskUSD then
        some "estimated risk exceeds risk_usd budget"
      else none

/-- validateDecision (engine.go lines 945-1113). -/
def validateDecision (d : Decision) (accountEquity : ℚ)
    (btcEthLeverage altcoinLeverage : ℤ)
    (mkt : List (String × MarketData)) : Option String :=
  if ¬ validActions.contains d.action then some "invalid action"
  else
    match (if d.action = "open_long" ∨ d.action = "open_short" then
            validateOpen d accountEquity btcEthLeverage altcoinLeverage mkt
           else none) with
    | some e => some e
    | none =>
      if d.action = "update_stop_loss" ∧ d.newStopLoss ≤ 0 then
        some "new_stop_loss must be > 0"
      else if d.action = "update_take_profit" ∧ d.newTakeProfit ≤ 0 then
        some "new_take_profit must be > 0"
      else if d.action = "partial_close" ∧ (d.closePercentage ≤ 0 ∨ d.closePercentage > 100) then
        some "close_percentage must be in (0,100]"
      else none

/-- validateDecisions (engine.go lines 913-920): the first failing decision
aborts the whole batch with an error (the Go message prefixes the decision
index). -/
def validateDecisions (decisions : List Decision) (accountEquity : ℚ)
    (btcEthLeverage altcoinLeverage : ℤ)
    (mkt : List (String × MarketData)) : Option String :=
  match decisions with
  | [] => none
  | d :: rest =>
    match validateDecision d accountEquity btcEthLeverage altcoinLeverage mkt with
    | some e => some e
    | none => validateDecisions rest accountEquity btcEthLeverage altcoinLeverage mkt

/-! ### The decision phase of one cycle — decision/engine.go,
`parseFullDecisionResponse` (lines 516-531) and trader/sizing.go, `runCycle`
(lines 610-699).

`parseFullDecisionResponse` always computes the chain-of-thought trace and
returns it with the (possibly empty) decision list; on a parse or validation
error `GetFullDecisionWithCustomPrompt` propagates the error.  In `runCycle`
the raw trace and error are stored on the decision record and the cycle
returns before the execution loop, so no decision of the batch is executed.
`cot` stands for `strings.TrimSpace(extractCoTTrace(aiResponse))`, computed
independently of parsing success. -/

/-- What one cycle does with a response, projected on the decision record:
the decisions it goes on to execute, the recorded error (if any) and the
recorded reasoning trace. -/
structure CycleOutcome where
  executed : List Decision
  recordError : Option String
  recordCoT : String
deriving Repr

/-- The decision phase of `runCycle` (sizing.go lines 610-699) composed with
`parseFullDecisionResponse` (engine.go lines 516-531): a parse error or a
validation error records the error and the trace and executes nothing; a
valid batch is sorted by priority and executed.  (The in-place size
adjustment of `adjustDecisionsByPerformance` mutates open decisions but
neither drops nor reorders them; it is not re-modelled here.) -/
def runCycleDecisionPhase (parsed : Except String (List Decision))
    (cot : String) (accountEquity : ℚ) (btcEthLeverage altcoinLeverage : ℤ)
    (mkt : List (String × MarketData)) : CycleOutcome :=
  match parsed with
  | Except.error e =>
    { executed := [], recordError := some ("strict JSON parsing failed: " ++ e),
      recordCoT := cot }
  | Except.ok ds =>
    match validateDecisions ds accountEquity btcEthLeverage altcoinLeverage mkt with
    | some e =>
      { executed := [], recordError := some ("decision validation failed: " ++ e),
        recordCoT := cot }
    | none =>
      { executed := sortDecisionsByPriority ds, recordError := none,
        recordCoT := cot }

/-! ### Response Parser — decision/engine.go, `sanitizeModelResponse`
(lines 826-879), `extractDecisionsStrict` (lines 653-699) and their helpers.

Text is modelled as `List Char`.  Regular expressions are embedded by their
matching semantics on the relevant patterns:
`reJSONFenceGeneric` finds the leftmost "```json" (case-insensitive) and
captures up to the first following "```", with the surrounding `\s*`
absorbed into the later `TrimSpace`; `reDecisionTag` is a plain
tag-delimited capture; `reInvisibleRunes` removes four fixed code points;
`reBlockComment` removes leftmost-shortest `/* ... */` spans;
`reLineComment` blanks lines whose first non-blank characters are `//` or
`#` (the regex `^\s*` can additionally absorb whitespace-only lines
directly preceding such a line; that corner is not modelled).
`strings.TrimSpace` is modelled on the ASCII whitespace set. -/

/-- ASCII whitespace for `strings.TrimSpace`. -/
def isGoSpace (c : Char) : Bool :=
  c == ' ' || c == '\t' || c == '\n' || c == '\r' ||
  c == Char.ofNat 11 || c == Char.ofNat 12

/-- strings.TrimSpace. -/
def goTrimSpace (l : List Char) : List Char :=
  ((l.dropWhile isGoSpace).reverse.dropWhile isGoSpace).reverse

/-- removeInvisibleRunes (engine.go lines 776-778): strip zero-width
characters and BOM (U+200B, U+200C, U+200D, U+FEFF). -/
def removeInvisibleRunes (l : List Char) : List Char :=
  l.filter (fun c =>
    !(c == '\u200B' || c == '\u200C' || c == '\u200D' || c == '\uFEFF'))

/-- The character map of fixMissingQuotes (engine.go lines 702-728): CJK
quotes, brackets, colon, comma and full-width space to ASCII. -/
def fixQuoteChar (c : Char) : Char :=
  if c == '“' || c == '”' then '"'
  else if c == '‘' || c == '’' then Char.ofNat 39
  else if c == '［' || c == '【' || c == '〔' then '['
  else if c == '］' || c == '】' || c == '〕' then ']'
  else if c == '｛' then '\x7b'
  else if c == '｝' then '\x7d'
  else if c == '：' then ':'
  else if c == '，' || c == '、' then ','
  else if c == '　' then ' '
  else c

/-- fixMissingQuotes (engine.go lines 702-728): every replacement is a
single-rune substitution, so `ReplaceAll` composes to a character map. -/
def fixMissingQuotes (l : List Char) : List Char := l.map fixQuoteChar

/-- Whether `pat` is a prefix of `s`. -/
def startsWithChars : List Char → List Char → Bool
  | [], _ => true
  | _ :: _, [] => false
  | p :: ps, c :: cs => p == c && startsWithChars ps cs

/-- Index of the first occurrence of `pat` (strings.Index). -/
def findSubIdx (pat : List Char) : List Char → Option ℕ
  | [] => if pat.isEmpty then some 0 else none
  | c :: rest =>
    if startsWithChars pat (c :: rest) then some 0
    else (findSubIdx pat rest).map (fun n => n + 1)

/-- ASCII lower-casing, for the `(?i)` flag of `reJSONFenceGeneric`. -/
def asciiLower (c : Char) : Char :=
  if 'A' ≤ c ∧ c ≤ 'Z' then Char.ofNat (c.toNat + 32) else c

/-- The capture of `reJSONFenceGeneric` (engine.go line 27): the text between
the leftmost (case-insensitive) "```json" and the first following "```",
with surrounding whitespace stripped (the regex `\s*` plus the caller's
`TrimSpace` compose to `goTrimSpace`). -/
def jsonFenceCapture (s : List Char) : Option (List Char) :=
  let ls := s.map asciiLower
  match findSubIdx ("```json".toList) ls with
  | none => none
  | some i =>
    match findSubIdx ("```".toList) (ls.drop (i + 7)) with
    | none => none
    | some j => some (goTrimSpace ((s.drop (i + 7)).take j))

/-- The capture of a tag-delimited regex such as `reDecisionTag`
(engine.go line 33): text between the leftmost open tag and the first
following close tag. -/
def tagCapture (openTag closeTag : List Char) (s : List Char) : Option (List Char) :=
  match findSubIdx openTag s with
  | none => none
  | some i =>
    let rest := s.drop (i + openTag.length)
    match findSubIdx closeTag rest with
    | none => none
    | some j => some (rest.take j)

/-- Removal of `/* ... */` block comments (reBlockComment, engine.go
line 29): leftmost-shortest spans, repeatedly. -/
def removeBlockComments : ℕ → List Char → List Char
  | 0, s => s
  | fuel + 1, s =>
    match findSubIdx ("/*".toList) s with
    | none => s
    | some i =>
      let rest := s.drop (i + 2)
      match findSubIdx ("*/".toList) rest with
      | none => s
      | some j => s.take i ++ removeBlockComments fuel (rest.drop (j + 2))

/-- Intra-line whitespace for the line-comment scan. -/
def isLineWS (c : Char) : Bool :=
  c == ' ' || c == '\t' || c == '\r' || c == Char.ofNat 11 || c == Char.ofNat 12

/-- Split on newline characters. -/
def splitOnNL : List Char → List (List Char)
  | [] => [[]]
  | c :: rest =>
    if c == '\n' then [] :: splitOnNL rest
    else
      match splitOnNL rest with
      | [] => [[c]]
      | line :: more => (c :: line) :: more

/-- Rejoin lines with newline characters. -/
def joinLines : List (List Char) → List Char
  | [] => []
  | [l] => l
  | l :: rest => l ++ '\n' :: joinLines rest

/-- One line under reLineComment (engine.go line 28): a line whose first
non-blank characters are `//` or `#` is blanked. -/
def stripLineComment (line : List Char) : List Char :=
  let t := line.dropWhile isLineWS
  if startsWithChars ("//".toList) t || startsWithChars ("#".toList) t then []
  else line

/-- stripJSONComments (engine.go lines 784-788): block comments first, then
line comments. -/
def stripJSONComments (s : List Char) : List Char :=
  let s1 := removeBlockComments s.length s
  joinLines ((splitOnNL s1).map stripLineComment)

/-- Scanner of findMatchingBrace (engine.go lines 792-818): depth counting
with the code's quoted-string skip, whose escape check inspects only the
immediately preceding character. -/
def findMatchingBraceAux : List Char → Option Char → ℕ → Bool → ℕ → Option ℕ
  | [], _, _, _, _ => none
  | c :: rest, prev, depth, inString, i =>
    if c == '"' && prev != some '\\' then
      findMatchingBraceAux rest (some c) depth (!inString) (i + 1)
    else if inString then findMatchingBraceAux rest (some c) depth inString (i + 1)
    else if c == '\x7b' then findMatchingBraceAux rest (some c) (depth + 1) inString (i + 1)
    else if c == '\x7d' then
      if depth = 1 then some i
      else findMatchingBraceAux rest (some c) (depth - 1) inString (i + 1)
    else findMatchingBraceAux rest (some c) depth inString (i + 1)

/-- findMatchingBrace (engine.go lines 792-818); `none` models Go's -1. -/
def findMatchingBrace (s : List Char) (start : ℕ) : Option ℕ :=
  match s.drop start with
  | c :: rest =>
    if c == '\x7b' then
      findMatchingBraceAux (c :: rest)
        (if start = 0 then none else s.get? (start - 1)) 0 false start
    else none
  | [] => none

/-- Scanner of findMatchingBracket (engine.go lines 923-942); unlike the
brace version it does not skip quoted strings — as in the source. -/
def findMatchingBracketAux : List Char → ℕ → ℕ → Option ℕ
  | [], _, _ => none
  | c :: rest, depth, i =>
    if c == '[' then findMatchingBracketAux rest (depth + 1) (i + 1)
    else if c == ']' then
      if depth = 1 then some i
      else findMatchingBracketAux rest (depth - 1) (i + 1)
    else findMatchingBracketAux rest depth (i + 1)

/-- findMatchingBracket (engine.go lines 923-942). -/
def findMatchingBracket (s : List Char) (start : ℕ) : Option ℕ :=
  match s.drop start with
  | c :: rest => if c == '[' then findMatchingBracketAux (c :: rest) 0 start else none
  | [] => none

/-- The backward scan to the nearest '\x7b' at or before `idx`
(engine.go lines 889-895). -/
def backFindBrace (s : List Char) (idx : ℕ) : Option ℕ :=
  ((List.range (idx + 1)).reverse).find? (fun i => s.get? i == some '\x7b')

/-- findDecisionsObjectSubstring (engine.go lines 884-905): locate the
literal key "decisions", scan back to the nearest opening brace and forward
to its balanced closing brace; empty result models Go's "". -/
def findDecisionsObjectSubstring (s : List Char) : List Char :=
  match findSubIdx ("\"decisions\"".toList) s with
  | none => []
  | some idx =>
    match backFindBrace s idx with
    | none => []
    | some start =>
      match findMatchingBrace s start with
      | some e => if start < e then (s.take (e + 1)).drop start else []
      | none => []

/-- sanitizeModelResponse (engine.go lines 826-879): trim, strip invisible
runes, normalize punctuation; then prefer the ```json fence, then the
<decision> tag, then the object containing "decisions", then the first
balanced object/array substring; comments are stripped from the selected
region. -/
def sanitizeModelResponse (response : List Char) : List Char :=
  let s := fixMissingQuotes (removeInvisibleRunes (goTrimSpace response))
  match jsonFenceCapture s with
  | some inner => stripJSONComments (goTrimSpace inner)
  | none =>
    match tagCapture ("<decision>".toList) ("</decision>".toList) s with
    | some inner => stripJSONComments (goTrimSpace inner)
    | none =>
      let obj := findDecisionsObjectSubstring s
      if ¬ obj.isEmpty then stripJSONComments (goTrimSpace obj)
      else
        let pick : Option (ℕ × Bool) :=
          match findSubIdx ("\x7b".toList) s, findSubIdx ("[".toList) s with
          | some o, some a => if o < a then some (o, true) else some (a, false)
          | some o, none => some (o, true)
          | none, some a => some (a, false)
          | none, none => none
        let s2 :=
          match pick with
          | none => s
          | some (start, isObj) =>
            match (if isObj then findMatchingBrace s start else findMatchingBracket s start) with
            | some e => if start < e then (s.take (e + 1)).drop start else s.drop start
            | none => s.drop start
        goTrimSpace (stripJSONComments s2)

/-! ### JSON — the part of `encoding/json.Unmarshal` exercised by
`extractDecisionsStrict`: parsing a JSON document and decoding it into the
`Decision` struct.  Go's semantics are followed: strict grammar (no trailing
commas or comments, no leading zeros, no raw control characters in strings),
object keys matched to struct tags exactly or case-insensitively with the
last occurrence winning, `null` leaving a field untouched, numbers decoded
into int fields only when written as pure integer literals, unknown keys
ignored, and the whole input required to be a single value. -/

/-- A parsed JSON value.  `jnum` carries the rational value and whether the
literal was a pure integer (no fraction, no exponent), which is what Go
requires when decoding into an `int` field. -/
inductive JVal where
  | jnull : JVal
  | jbool : Bool → JVal
  | jnum : ℚ → Bool → JVal
  | jstr : List Char → JVal
  | jarr : List JVal → JVal
  | jobj : List (List Char × JVal) → JVal

/-- JSON whitespace. -/
def isJsonWS (c : Char) : Bool :=
  c == ' ' || c == '\t' || c == '\n' || c == '\r'

/-- Skip JSON whitespace. -/
def dropWS (l : List Char) : List Char := l.dropWhile isJsonWS

/-- Hex digit value. -/
def hexVal (c : Char) : Option ℕ :=
  if '0' ≤ c ∧ c ≤ '9' then some (c.toNat - 48)
  else if 'a' ≤ c ∧ c ≤ 'f' then some (c.toNat - 87)
  else if 'A' ≤ c ∧ c ≤ 'F' then some (c.toNat - 55)
  else none

/-- Parse the remainder of a JSON string (after the opening quote); returns
the decoded characters and the rest of the input.  Raw control characters
and unknown escapes are errors, as in Go. -/
def parseJString : ℕ → List Char → Option (List Char × List Char)
  | 0, _ => none
  | _, [] => none
  | fuel + 1, c :: rest =>
    if c == '"' then some ([], rest)
    else if c == '\\' then
      match rest with
      | [] => none
      | e :: rest2 =>
        let push (ch : Char) (r : List Char) : Option (List Char × List Char) :=
          (parseJString fuel r).map (fun p => (ch :: p.1, p.2))
        if e == '"' then push '"' rest2
        else if e == '\\' then push '\\' rest2
        else if e == '/' then push '/' rest2
        else if e == 'n' then push '\n' rest2
        else if e == 't' then push '\t' rest2
        else if e == 'r' then push '\r' rest2
        else if e == 'b' then push (Char.ofNat 8) rest2
        else if e == 'f' then push (Char.ofNat 12) rest2
        else if e == 'u' then
          match rest2 with
          | h1 :: h2 :: h3 :: h4 :: rest3 =>
            match hexVal h1, hexVal h2, hexVal h3, hexVal h4 with
            | some a, some b, some cc, some d =>
              push (Char.ofNat (((a * 16 + b) * 16 + cc) * 16 + d)) rest3
            | _, _, _, _ => none
          | _ => none
        else none
    else if c.toNat < 32 then none
    else (parseJString fuel rest).map (fun p => (c :: p.1, p.2))

/-- Digits to a natural number. -/
def digitsToNat (l : List Char) : ℕ :=
  l.foldl (fun a c => 10 * a + (c.toNat - 48)) 0

/-- Parse a JSON number (strict grammar: optional minus, `0` or a
nonzero-led digit run, optional fraction, optional exponent).  Returns the
value, the pure-integer-literal flag and the rest. -/
def parseJNumber (s : List Char) : Option (ℚ × Bool × List Char) :=
  let (neg, s1) := match s with
    | c :: r => if c == '-' then (true, r) else (false, s)
    | [] => (false, s)
  let ip := s1.takeWhile Char.isDigit
  let r1 := s1.dropWhile Char.isDigit
  if ip.isEmpty then none
  else if ip.length > 1 ∧ ip.head? == some '0' then none
  else
    let iv : ℚ := (digitsToNat ip : ℚ)
    let fracStep : Option (ℚ × Bool × List Char) :=
      match r1 with
      | c :: r =>
        if c == '.' then
          let fd := r.takeWhile Char.isDigit
          if fd.isEmpty then none
          else some ((digitsToNat fd : ℚ) / (10 : ℚ) ^ fd.length, true, r.dropWhile Char.isDigit)
        else some (0, false, r1)
      | [] => some (0, false, r1)
    match fracStep with
    | none => none
    | some (fv, hasFrac, r2) =>
      let expStep : Option (ℤ × Bool × List Char) :=
        match r2 with
        | c :: r =>
          if c == 'e' || c == 'E' then
            let (eneg, r4) := match r with
              | c2 :: r5 => if c2 == '-' then (true, r5)
                            else if c2 == '+' then (false, r5)
                            else (false, r)
              | [] => (false, r)
            let ed := r4.takeWhile Char.isDigit
            if ed.isEmpty then none
            else some ((if eneg then -(digitsToNat ed : ℤ) else (digitsToNat ed : ℤ)),
                  true, r4.dropWhile Char.isDigit)
          else some (0, false, r2)
        | [] => some (0, false, r2)
      match expStep with
      | none => none
      | some (ex, hasExp, r3) =>
        let mag := (iv + fv) * (10 : ℚ) ^ ex
        some ((if neg then -mag else mag), (!hasFrac && !hasExp), r3)

mutual

/-- Parse one JSON value. -/
def parseJValue : ℕ → List Char → Option (JVal × List Char)
  | 0, _ => none
  | fuel + 1, s =>
    match dropWS s with
    | [] => none
    | c :: rest =>
      if c == '\x7b' then
        match dropWS rest with
        | c2 :: r2 =>
          if c2 == '\x7d' then some (JVal.jobj [], r2)
          else parseJFields fuel rest []
        | [] => none
      else if c == '[' then
        match dropWS rest with
        | c2 :: r2 =>
          if c2 == ']' then some (JVal.jarr [], r2)
          else parseJElems fuel rest []
        | [] => none
      else if c == '"' then
        (parseJString (rest.length + 1) rest).map (fun p => (JVal.jstr p.1, p.2))
      else if c == 't' then
        if startsWithChars ("rue".toList) rest then some (JVal.jbool true, rest.drop 3) else none
      else if c == 'f' then
        if startsWithChars ("alse".toList) rest then some (JVal.jbool false, rest.drop 4) else none
      else if c == 'n' then
        if startsWithChars ("ull".toList) rest then some (JVal.jnull, rest.drop 3) else none
      else if c == '-' || c.isDigit then
        (parseJNumber (c :: rest)).map (fun p => (JVal.jnum p.1 p.2.1, p.2.2))
      else none

/-- Parse the fields of a JSON object (after the opening brace). -/
def parseJFields : ℕ → List Char → List (List Char × JVal) →
    Option (JVal × List Char)
  | 0, _, _ => none
  | fuel + 1, s, acc =>
    match dropWS s with
    | c :: rest =>
      if c == '"' then
        match parseJString (rest.length + 1) rest with
        | none => none
        | some (key, r1) =>
          match dropWS r1 with
          | c2 :: r2 =>
            if c2 == ':' then
              match parseJValue fuel r2 with
              | none => none
              | some (v, r3) =>
                match dropWS r3 with
                | c3 :: r4 =>
                  if c3 == ',' then parseJFields fuel r4 (acc ++ [(key, v)])
                  else if c3 == '\x7d' then some (JVal.jobj (acc ++ [(key, v)]), r4)
                  else none
                | [] => none
            else none
          | [] => none
      else none
    | [] => none

/-- Parse the elements of a JSON array (after the opening bracket). -/
def parseJElems : ℕ → List Char → List JVal → Option (JVal × List Char)
  | 0, _, _ => none
  | fuel + 1, s, acc =>
    match parseJValue fuel s with
    | none => none
    | some (v, r1) =>
      match dropWS r1 with
      | c :: r2 =>
        if c == ',' then parseJElems fuel r2 (acc ++ [v])
        else if c == ']' then some (JVal.jarr (acc ++ [v]), r2)
        else none
      | [] => none

end

/-- json.Unmarshal's framing: one JSON value, nothing but whitespace after.
The fuel bound exceeds the maximum possible call-chain depth (each nested
call consumes at least one input character). -/
def jsonUnmarshal (s : List Char) : Option JVal :=
  match parseJValue (2 * s.length + 8) s with
  | some (v, rest) => if (dropWS rest).isEmpty then some v else none
  | none => none

/-- Case-insensitive key comparison (Go matches struct tags exactly or
case-insensitively; ASCII folding suffices for the tags in play). -/
def ciEqChars (a b : List Char) : Bool :=
  (a.map asciiLower) == (b.map asciiLower)

/-- Assign one JSON object entry to the `Decision` field whose json tag it
matches (engine.go lines 96-115); unknown keys are ignored, `null` is a
no-op, type mismatches are errors. -/
def setDecisionField (d : Decision) (key : List Char) (v : JVal) : Option Decision :=
  if ciEqChars key ("symbol".toList) then
    match v with
    | JVal.jnull => some d
    | JVal.jstr s => some { d with symbol := String.mk s }
    | _ => none
  else if ciEqChars key ("action".toList) then
    match v with
    | JVal.jnull => some d
    | JVal.jstr s => some { d with action := String.mk s }
    | _ => none
  else if ciEqChars key ("leverage".toList) then
    match v with
    | JVal.jnull => some d
    | JVal.jnum q intLit => if intLit then some { d with leverage := q.num } else none
    | _ => none
  else if ciEqChars key ("position_size_usd".toList) then
    match v with
    | JVal.jnull => some d
    | JVal.jnum q _ => some { d with positionSizeUSD := q }
    | _ => none
  else if ciEqChars key ("stop_loss".toList) then
    match v with
    | JVal.jnull => some d
    | JVal.jnum q _ => some { d with stopLoss := q }
    | _ => none
  else if ciEqChars key ("take_profit".toList) then
    match v with
    | JVal.jnull => some d
    | JVal.jnum q _ => some { d with takeProfit := q }
    | _ => none
  else if ciEqChars key ("new_stop_loss".toList) then
    match v with
    | JVal.jnull => some d
    | JVal.jnum q _ => some { d with newStopLoss := q }
    | _ => none
  else if ciEqChars key ("new_take_profit".toList) then
    match v with
    | JVal.jnull => some d
    | JVal.jnum q _ => some { d with newTakeProfit := q }
    | _ => none
  else if ciEqChars key ("close_percentage".toList) then
    match v with
    | JVal.jnull => some d
    | JVal.jnum q _ => some { d with closePercentage := q }
    | _ => none
  else if ciEqChars key ("confidence".toList) then
    match v with
    | JVal.jnull => some d
    | JVal.jnum q intLit => if intLit then some { d with confidence := q.num } else none
    | _ => none
  else if ciEqChars key ("risk_usd".toList) then
    match v with
    | JVal.jnull => some d
    | JVal.jnum q _ => some { d with riskUSD := q }
    | _ => none
  else if ciEqChars key ("reasoning".toList) then
    match v with
    | JVal.jnull => some d
    | JVal.jstr s => some { d with reasoning := String.mk s }
    | _ => none
  else some d

/-- Fold the entries of a JSON object into a `Decision`, later entries
winning (Go assigns keys in order). -/
def decodeDecisionFields : List (List Char × JVal) → Decision → Option Decision
  | [], d => some d
  | (k, v) :: rest, d =>
    match setDecisionField d k v with
    | none => none
    | some d2 => decodeDecisionFields rest d2

/-- Decode one JSON value into a `Decision`. -/
def decodeDecision (v : JVal) : Option Decision :=
  match v with
  | JVal.jobj fields => decodeDecisionFields fields zeroDecision
  | JVal.jnull => some zeroDecision
  | _ => none

/-- Decode a JSON array element-wise. -/
def decodeDecisionArr : List JVal → Option (List Decision)
  | [] => some []
  | x :: xs =>
    match decodeDecision x, decodeDecisionArr xs with
    | some d, some ds => some (d :: ds)
    | _, _ => none

/-- Decode one JSON value into a `[]Decision`. -/
def decodeDecisionList (v : JVal) : Option (List Decision) :=
  match v with
  | JVal.jarr xs => decodeDecisionArr xs
  | JVal.jnull => some []
  | _ => none

/-- json.Unmarshal into the anonymous wrapper struct of
`extractDecisionsStrict` (engine.go lines 658-661): the document must be an
object (or null); the last key matching `decisions` supplies the list, no
match leaves the nil slice. -/
def decodeWrapper (s : List Char) : Option (List Decision) :=
  match jsonUnmarshal s with
  | some (JVal.jobj fields) =>
    match (fields.filter (fun kv => ciEqChars kv.1 ("decisions".toList))).getLast? with
    | none => some []
    | some kv => decodeDecisionList kv.2
  | some JVal.jnull => some []
  | some _ => none
  | none => none

/-- json.Unmarshal into `[]Decision` (the bare-array fallbacks of
`extractDecisionsStrict`). -/
def decodeBareArray (s : List Char) : Option (List Decision) :=
  match jsonUnmarshal s with
  | some v => decodeDecisionList v
  | none => none

/-- extractDecisionsStrict (engine.go lines 653-699): sanitize, then try the
object-with-decisions parse, the decisions-object substring of the raw
response, the bare array, and the first balanced bracketed substring; each
strategy succeeds only when it yields a non-empty list.  The error carries a
160-character preview of the sanitized text. -/
def extractDecisionsStrict (response : List Char) :
    Except (List Char) (List Decision) :=
  let s := sanitizeModelResponse response
  let step1 : Option (List Decision) :=
    match decodeWrapper s with
    | some ds => if ds.length > 0 then some ds else none
    | none => none
  match step1 with
  | some ds => Except.ok ds
  | none =>
    let obj := findDecisionsObjectSubstring response
    let step2 : Option (List Decision) :=
      if ¬ obj.isEmpty then
        match decodeWrapper obj with
        | some ds => if ds.length > 0 then some ds else none
        | none => none
      else none
    match step2 with
    | some ds => Except.ok ds
    | none =>
      let step3 : Option (List Decision) :=
        match decodeBareArray s with
        | some ds => if ds.length > 0 then some ds else none
        | none => none
      match step3 with
      | some ds => Except.ok ds
      | none =>
        let step4 : Option (List Decision) :=
          match findSubIdx ("[".toList) s with
          | some idx =>
            match findMatchingBracket s idx with
            | some e =>
              if idx < e then
                match decodeBareArray ((s.take (e + 1)).drop idx) with
                | some ds => if ds.length > 0 then some ds else none
                | none => none
              else none
            | none => none
          | none => none
        match step4 with
        | some ds => Except.ok ds
        | none =>
          Except.error (if s.length > 160 then s.take 160 ++ ("...".toList) else s)

/-! ## Theorems -/

theorem marginSafetyClamp_le (expQ : ℚ → ℚ) (leverage : ℤ)
    (available feeRate n : ℚ) (hl : 0 < leverage) (ha : 0 < available)
    (hf : 0 ≤ feeRate) :
    marginSafetyClamp expQ leverage available feeRate n ≤
      available / (1 / (leverage : ℚ) + feeRate) := by
  have hlq : (0 : ℚ) < (leverage : ℚ) := by exact_mod_cast hl
  have hinv : (0 : ℚ) < 1 / (leverage : ℚ) := by positivity
  have hd : (0 : ℚ) < 1 / (leverage : ℚ) + feeRate := by linarith
  have hlim : (0 : ℚ) < available / (1 / (leverage : ℚ) + feeRate) := div_pos ha hd
  unfold marginSafetyClamp
  rw [if_pos ⟨hl, ha⟩]
  dsimp only
  split_ifs with h1 h2 h3 <;> linarith

/-- C1 (amended): for every call of ComputeAdjustedSize with leverage > 0,
available > 0 and a nonnegative feeRate, the returned size is at most the
margin limit available/(1/leverage + feeRate); the bound holds for any model
of the exponential used by the logistic compression. -/
theorem computeAdjustedSize_le_margin_limit (expQ : ℚ → ℚ) (base : ℚ)
    (leverage : ℤ) (available feeRate winRate profitFactor confidence : ℚ)
    (recentLossCooldown : Bool) (hl : 0 < leverage) (ha : 0 < available)
    (hf : 0 ≤ feeRate) :
    ComputeAdjustedSize expQ base leverage available feeRate winRate
      profitFactor confidence recentLossCooldown ≤
      available / (1 / (leverage : ℚ) + feeRate) := by
  have hlq : (0 : ℚ) < (leverage : ℚ) := by exact_mod_cast hl
  have hinv : (0 : ℚ) < 1 / (leverage : ℚ) := by positivity
  have hd : (0 : ℚ) < 1 / (leverage : ℚ) + feeRate := by linarith
  have hlim : (0 : ℚ) < available / (1 / (leverage : ℚ) + feeRate) := div_pos ha hd
  unfold ComputeAdjustedSize
  split_ifs with hb
  · linarith
  · have hm := marginSafetyClamp_le expQ leverage available feeRate
      (relChangeClamp base
        (base * perfMultiplier winRate profitFactor confidence recentLossCooldown))
      hl ha hf
    dsimp only
    split_ifs with hneg
    · linarith
    · exact hm

/-- C1 witness: the spec's own example, ComputeAdjustedSize(100, 5, 10000,
0.0004, 70, 2.0, 80, false) is bounded by the margin limit. -/
theorem computeAdjustedSize_le_margin_limit_witness :
    (0 : ℤ) < 5 ∧ (0 : ℚ) < 10000 ∧ (0 : ℚ) ≤ 0.0004 ∧
    ComputeAdjustedSize (fun _ => 1) 100 5 10000 0.0004 70 2 80 false ≤
      10000 / (1 / ((5 : ℤ) : ℚ) + 0.0004) :=
  ⟨by decide, by norm_num, by norm_num,
   computeAdjustedSize_le_margin_limit (fun _ => 1) 100 5 10000 0.0004 70 2 80
     false (by decide) (by norm_num) (by norm_num)⟩

/-- C1 counterexample: with leverage = 1 > 0 and available = 100 > 0 but
feeRate = -2, the denominator 1/leverage + feeRate is negative, the Go guard
`limit > 0` skips the whole margin clamp, and the returned size 100 exceeds
the (negative) margin limit -100 — so the claim as stated, which quantifies
over all feeRate, is false. -/
theorem computeAdjustedSize_margin_limit_counterexample :
    ComputeAdjustedSize (fun _ => 0) 100 1 100 (-2) 50 1 70 false = 100 ∧
    ¬ (ComputeAdjustedSize (fun _ => 0) 100 1 100 (-2) 50 1 70 false ≤
        100 / (1 / ((1 : ℤ) : ℚ) + (-2))) := by
  constructor
  · norm_num [ComputeAdjustedSize, perfMultiplier, relChangeClamp, marginSafetyClamp]
  · norm_num [ComputeAdjustedSize, perfMultiplier, relChangeClamp, marginSafetyClamp]

theorem pause_branch_eq (c1 c2 : Prop) [Decidable c1] [Decidable c2]
    (x y : ℤ) (h : c1 ∨ c2) :
    (if c2 then x else if c1 then x else y) = x ∧
    (if c1 ∨ c2 then true else false) = true := by
  rcases h with h | h
  · by_cases h2 : c2 <;> simp [h, h2]
  · simp [h]

/-- C3: when a max-daily-loss threshold is configured (positive) and the
computed daily loss percentage reaches it, or a max-drawdown threshold is
configured and the computed drawdown reaches it, CheckAndApplyRiskPause sets
the pause deadline to now + configured pause duration and reports the pause;
either condition alone suffices. -/
theorem checkAndApplyRiskPause_pauses (cfg : RiskConfig) (s : RiskState)
    (currentEquity : ℚ) (now : ℤ)
    (h : (cfg.maxDailyLoss > 0 ∧ dailyLossPctOf s currentEquity ≥ cfg.maxDailyLoss) ∨
         (cfg.maxDrawdown > 0 ∧ drawdownPctOf s currentEquity ≥ cfg.maxDrawdown)) :
    ((CheckAndApplyRiskPause cfg s currentEquity now).1).stopUntil =
      now + cfg.stopTradingTime ∧
    (CheckAndApplyRiskPause cfg s currentEquity now).2 = true := by
  simp only [CheckAndApplyRiskPause, dailyLossPctOf, drawdownPctOf] at h ⊢
  exact pause_branch_eq _ _ _ _ h

/-- C3 witness: the spec's example — dayStartEquity 1000, maxDailyLoss 5%,
currentEquity 940 gives dailyLossPct 6 ≥ 5 and triggers the pause. -/
theorem checkAndApplyRiskPause_pauses_witness :
    dailyLossPctOf ⟨1000, 1000, 0, 0, 0⟩ 940 = 6 ∧
    (((⟨5, 0, 60 * minuteNs⟩ : RiskConfig).maxDailyLoss > 0 ∧
      dailyLossPctOf ⟨1000, 1000, 0, 0, 0⟩ 940 ≥ (⟨5, 0, 60 * minuteNs⟩ : RiskConfig).maxDailyLoss) ∨
     ((⟨5, 0, 60 * minuteNs⟩ : RiskConfig).maxDrawdown > 0 ∧
      drawdownPctOf ⟨1000, 1000, 0, 0, 0⟩ 940 ≥ (⟨5, 0, 60 * minuteNs⟩ : RiskConfig).maxDrawdown)) ∧
    ((CheckAndApplyRiskPause ⟨5, 0, 60 * minuteNs⟩ ⟨1000, 1000, 0, 0, 0⟩ 940 0).1).stopUntil =
      0 + (60 : ℤ) * minuteNs ∧
    (CheckAndApplyRiskPause ⟨5, 0, 60 * minuteNs⟩ ⟨1000, 1000, 0, 0, 0⟩ 940 0).2 = true :=
  ⟨by norm_num [dailyLossPctOf],
   Or.inl ⟨by norm_num, by norm_num [dailyLossPctOf]⟩,
   checkAndApplyRiskPause_pauses ⟨5, 0, 60 * minuteNs⟩ ⟨1000, 1000, 0, 0, 0⟩ 940 0
     (Or.inl ⟨by norm_num, by norm_num [dailyLossPctOf]⟩)⟩

/-- C9: when the 24-hour daily reset fires it zeroes dailyPnL and refreshes
the last-reset timestamp, and leaves dayStartEquity, equityPeak and the pause
deadline unchanged. -/
theorem dailyReset_frame (s : RiskState) (now : ℤ)
    (h : now - s.lastResetTime > 24 * hourNs) :
    (dailyReset s now).dailyPnL = 0 ∧
    (dailyReset s now).lastResetTime = now ∧
    (dailyReset s now).dayStartEquity = s.dayStartEquity ∧
    (dailyReset s now).equityPeak = s.equityPeak ∧
    (dailyReset s now).stopUntil = s.stopUntil := by
  simp [dailyReset, h]

/-- C9 witness: a reset firing 25 hours after the last one. -/
theorem dailyReset_frame_witness :
    (25 * hourNs - (0 : ℤ) > 24 * hourNs) ∧
    (dailyReset ⟨1000, 1200, -60, 7, 0⟩ (25 * hourNs)).dailyPnL = 0 ∧
    (dailyReset ⟨1000, 1200, -60, 7, 0⟩ (25 * hourNs)).lastResetTime = 25 * hourNs ∧
    (dailyReset ⟨1000, 1200, -60, 7, 0⟩ (25 * hourNs)).dayStartEquity =
      (⟨1000, 1200, -60, 7, 0⟩ : RiskState).dayStartEquity ∧
    (dailyReset ⟨1000, 1200, -60, 7, 0⟩ (25 * hourNs)).equityPeak =
      (⟨1000, 1200, -60, 7, 0⟩ : RiskState).equityPeak ∧
    (dailyReset ⟨1000, 1200, -60, 7, 0⟩ (25 * hourNs)).stopUntil =
      (⟨1000, 1200, -60, 7, 0⟩ : RiskState).stopUntil :=
  ⟨by decide, dailyReset_frame ⟨1000, 1200, -60, 7, 0⟩ (25 * hourNs) (by decide)⟩

/-- C10: the tracked equity peak is monotonically non-decreasing: one
invocation of CheckAndApplyRiskPause never lowers it, and neither does any
sequence of invocations with arbitrary equity observations. -/
theorem equityPeak_monotone (cfg : RiskConfig) (s : RiskState) (e : ℚ)
    (now : ℤ) (tr : List (ℚ × ℤ)) :
    s.equityPeak ≤ ((CheckAndApplyRiskPause cfg s e now).1).equityPeak ∧
    s.equityPeak ≤ (runRiskPause cfg s tr).equityPeak := by
  have single : ∀ (s' : RiskState) (e' : ℚ) (n' : ℤ),
      s'.equityPeak ≤ ((CheckAndApplyRiskPause cfg s' e' n').1).equityPeak := by
    intro s' e' n'
    simp only [CheckAndApplyRiskPause]
    split_ifs <;> linarith
  refine ⟨single s e now, ?_⟩
  induction tr generalizing s with
  | nil => simp [runRiskPause]
  | cons p rest ih =>
    obtain ⟨pe, pt⟩ := p
    calc s.equityPeak ≤ ((CheckAndApplyRiskPause cfg s pe pt).1).equityPeak :=
          single s pe pt
      _ ≤ (runRiskPause cfg (CheckAndApplyRiskPause cfg s pe pt).1 rest).equityPeak :=
          ih _
      _ = (runRiskPause cfg s ((pe, pt) :: rest)).equityPeak := by
          simp [runRiskPause]

/-- C8: the peak-PnL percentage placed into the per-cycle position snapshot
is read from the cache under the symbol alone, while the drawdown monitor's
ratchet writes under symbol + "_" + side; at the failing input (a fresh
"BTCUSDT" long whose monitor peak is 12.5%) the snapshot shows 0 while the
ratchet entry holds 12.5. -/
theorem contextPeakPnLPct_misses_monitor_key :
    contextPeakPnLPct (UpdatePeakPnL [] "BTCUSDT" "long" (25 / 2)) "BTCUSDT" = 0 ∧
    goMapGet (UpdatePeakPnL [] "BTCUSDT" "long" (25 / 2)) ("BTCUSDT" ++ "_" ++ "long") = 25 / 2 := by
  exact ⟨rfl, rfl⟩

theorem drawdownStep_breach_noFire (s : DrawdownState) (p : ℚ)
    (hb : breachCond s p) (hc : s.count + 1 < s.window) :
    drawdownStep s p =
      ({ peak := updatePeakEntry s.peak p, count := s.count + 1, window := s.window }, false) := by
  simp only [drawdownStep]
  rw [if_pos hb, if_neg (by omega)]

theorem drawdownStep_breach_fire (s : DrawdownState) (p : ℚ)
    (hb : breachCond s p) (hc : s.window ≤ s.count + 1) :
    drawdownStep s p = ({ peak := none, count := 0, window := s.window }, true) := by
  simp only [drawdownStep]
  rw [if_pos hb, if_pos hc]

theorem drawdownStep_nonbreach (s : DrawdownState) (p : ℚ)
    (hb : ¬ breachCond s p) :
    drawdownStep s p =
      ({ peak := updatePeakEntry s.peak p, count := 0, window := s.window }, false) := by
  simp only [drawdownStep]
  rw [if_neg hb]

/-- C4: with the default window of 3 and a fresh (zero) breach counter, three
consecutive breaching checks issue the emergency close exactly on the third
check and never on the first or second, while any non-breaching check resets
the position's counter to 0 without a close. -/
theorem drawdownMonitor_fires_on_third_consecutive_breach
    (s0 : DrawdownState) (p1 p2 p3 : ℚ) (s : DrawdownState) (p : ℚ)
    (hw : s0.window = 3) (h0 : s0.count = 0)
    (hb1 : breachCond s0 p1)
    (hb2 : breachCond (drawdownStep s0 p1).1 p2)
    (hb3 : breachCond (drawdownStep (drawdownStep s0 p1).1 p2).1 p3)
    (hnb : ¬ breachCond s p) :
    (drawdownStep s0 p1).2 = false ∧
    (drawdownStep (drawdownStep s0 p1).1 p2).2 = false ∧
    (drawdownStep (drawdownStep (drawdownStep s0 p1).1 p2).1 p3).2 = true ∧
    (drawdownStep s p).2 = false ∧ ((drawdownStep s p).1).count = 0 := by
  have e1 := drawdownStep_breach_noFire s0 p1 hb1 (by omega)
  rw [e1] at hb2 hb3 ⊢
  dsimp only at hb2 hb3 ⊢
  have e2 := drawdownStep_breach_noFire _ p2 hb2 (by dsimp only; omega)
  rw [e2] at hb3 ⊢
  dsimp only at hb3 ⊢
  have e3 := drawdownStep_breach_fire _ p3 hb3 (by dsimp only; omega)
  rw [e3]
  rw [drawdownStep_nonbreach s p hnb]
  exact ⟨rfl, rfl, rfl, rfl, rfl⟩

/-- C4 witness: a position whose cached peak is 20% and whose PnL samples
10, 9, 8 breach on three consecutive checks (profit above 5%, drawdown 50%,
55%, 60% from the peak): the close fires exactly on the third check; a
sample of 4% does not breach and resets the counter. -/
theorem drawdownMonitor_fires_on_third_consecutive_breach_witness :
    (drawdownStep ⟨some 20, 0, 3⟩ 10).2 = false ∧
    (drawdownStep (drawdownStep ⟨some 20, 0, 3⟩ 10).1 9).2 = false ∧
    (drawdownStep (drawdownStep (drawdownStep ⟨some 20, 0, 3⟩ 10).1 9).1 8).2 = true ∧
    (drawdownStep (⟨some 20, 0, 3⟩ : DrawdownState) 4).2 = false ∧
    ((drawdownStep (⟨some 20, 0, 3⟩ : DrawdownState) 4).1).count = 0 :=
  drawdownMonitor_fires_on_third_consecutive_breach ⟨some 20, 0, 3⟩ 10 9 8
    ⟨some 20, 0, 3⟩ 4 rfl rfl
    (by norm_num [breachCond])
    (by norm_num [breachCond, drawdownStep, updatePeakEntry])
    (by norm_num [breachCond, drawdownStep, updatePeakEntry])
    (by norm_num [breachCond])

theorem selectSwap_perm (h : Decision) (l : List Decision) :
    List.Perm ((selectSwap h l).1 :: (selectSwap h l).2) (h :: l) := by
  induction l generalizing h with
  | nil => exact List.Perm.refl _
  | cons y ys ih =>
    simp only [selectSwap]
    split_ifs with hc
    · dsimp only
      exact List.Perm.trans
        (List.Perm.swap h (selectSwap y ys).1 (selectSwap y ys).2)
        ((ih y).cons h)
    · dsimp only
      exact List.Perm.trans
        (List.Perm.trans
          (List.Perm.swap y (selectSwap h ys).1 (selectSwap h ys).2)
          ((ih h).cons y))
        (List.Perm.swap h y ys)

theorem selectSwap_min (h : Decision) (l : List Decision) :
    getActionPriority ((selectSwap h l).1).action ≤ getActionPriority h.action ∧
    ∀ x ∈ (selectSwap h l).2,
      getActionPriority ((selectSwap h l).1).action ≤ getActionPriority x.action := by
  induction l generalizing h with
  | nil => simp [selectSwap]
  | cons y ys ih =>
    simp only [selectSwap]
    split_ifs with hc
    · obtain ⟨ih1, ih2⟩ := ih y
      dsimp only
      refine ⟨le_trans ih1 (le_of_lt hc), ?_⟩
      intro x hx
      rcases List.mem_cons.mp hx with hx | hx
      · subst hx; exact le_trans ih1 (le_of_lt hc)
      · exact ih2 x hx
    · obtain ⟨ih1, ih2⟩ := ih h
      dsimp only
      refine ⟨ih1, ?_⟩
      intro x hx
      rcases List.mem_cons.mp hx with hx | hx
      · subst hx; exact le_trans ih1 (not_lt.mp hc)
      · exact ih2 x hx

theorem swapSortAux_perm : ∀ (n : ℕ) (l : List Decision), l.length ≤ n →
    List.Perm (swapSortAux n l) l := by
  intro n
  induction n with
  | zero =>
    intro l hl
    rw [List.length_eq_zero.mp (Nat.le_zero.mp hl)]
    exact List.Perm.refl _
  | succ n ih =>
    intro l hl
    match l with
    | [] => exact List.Perm.refl _
    | x :: xs =>
      have hrest : (selectSwap x xs).2.length ≤ n := by
        rw [selectSwap_length]
        simpa using hl
      exact List.Perm.trans (List.Perm.cons _ (ih _ hrest)) (selectSwap_perm x xs)

theorem swapSortAux_sorted : ∀ (n : ℕ) (l : List Decision), l.length ≤ n →
    (swapSortAux n l).Pairwise
      (fun a b => getActionPriority a.action ≤ getActionPriority b.action) := by
  intro n
  induction n with
  | zero =>
    intro l hl
    rw [List.length_eq_zero.mp (Nat.le_zero.mp hl)]
    simp [swapSortAux]
  | succ n ih =>
    intro l hl
    match l with
    | [] => simp [swapSortAux]
    | x :: xs =>
      have hrest : (selectSwap x xs).2.length ≤ n := by
        rw [selectSwap_length]
        simpa using hl
      show ((selectSwap x xs).1 :: swapSortAux n (selectSwap x xs).2).Pairwise _
      refine List.pairwise_cons.mpr ⟨?_, ih _ hrest⟩
      intro b hb
      have hbmem : b ∈ (selectSwap x xs).2 :=
        (swapSortAux_perm n _ hrest).mem_iff.mp hb
      exact (selectSwap_min x xs).2 b hbmem

/-- A decision with only symbol and action populated, for concrete tests. -/
def mkDecision (sym act : String) : Decision :=
  { zeroDecision with symbol := sym, action := act }

/-- C6 (amended): sortDecisionsByPriority returns a permutation of its input
that is ordered by priority class (closes/partial-closes, then stop/take
updates, then opens, then hold/wait, unknown actions last), and on the input
actions [open_long, close_short, hold] produces [close_short, open_long,
hold]; the sort is, however, not stable (equal-priority decisions may be
reordered — see the counterexample). -/
theorem sortDecisionsByPriority_perm_sorted (ds : List Decision) :
    List.Perm (sortDecisionsByPriority ds) ds ∧
    (sortDecisionsByPriority ds).Pairwise
      (fun a b => getActionPriority a.action ≤ getActionPriority b.action) ∧
    sortDecisionsByPriority
      [mkDecision "BTCUSDT" "open_long", mkDecision "ETHUSDT" "close_short",
       mkDecision "SOLUSDT" "hold"] =
      [mkDecision "ETHUSDT" "close_short", mkDecision "BTCUSDT" "open_long",
       mkDecision "SOLUSDT" "hold"] := by
  refine ⟨?_, ?_, ?_⟩
  · unfold sortDecisionsByPriority
    split_ifs with h
    · exact List.Perm.refl ds
    · exact swapSortAux_perm ds.length ds le_rfl
  · unfold sortDecisionsByPriority
    split_ifs with h
    · match ds, h with
      | [], _ => simp
      | [x], _ => simp
    · exact swapSortAux_sorted ds.length ds le_rfl
  · decide

/-- C6 counterexample (stability fails): on input [open_long, open_short,
close_long] the two equal-priority opens come back in the order
[open_short, open_long] — the swap that moves close_long to the front
reverses them — so the output differs from the unique stable result. -/
theorem sortDecisionsByPriority_not_stable :
    getActionPriority (mkDecision "AUSDT" "open_long").action =
      getActionPriority (mkDecision "BUSDT" "open_short").action ∧
    sortDecisionsByPriority
      [mkDecision "AUSDT" "open_long", mkDecision "BUSDT" "open_short",
       mkDecision "CUSDT" "close_long"] =
      [mkDecision "CUSDT" "close_long", mkDecision "BUSDT" "open_short",
       mkDecision "AUSDT" "open_long"] ∧
    sortDecisionsByPriority
      [mkDecision "AUSDT" "open_long", mkDecision "BUSDT" "open_short",
       mkDecision "CUSDT" "close_long"] ≠
      [mkDecision "CUSDT" "close_long", mkDecision "AUSDT" "open_long",
       mkDecision "BUSDT" "open_short"] := by
  refine ⟨rfl, ?_, ?_⟩
  · decide
  · decide

theorem findLast_decomp (P Q : TradeOutcome → Bool) (l : List TradeOutcome) :
    (match l.reverse.find? P with
     | some t => Q t
     | none => false) = true ↔
    ∃ pre t post, l = pre ++ t :: post ∧ P t = true ∧ Q t = true ∧
      ∀ u ∈ post, P u = false := by
  induction l using List.reverseRecOn with
  | nil => simp
  | append_singleton ds d ih =>
    rw [List.reverse_append]
    simp only [List.reverse_cons, List.reverse_nil, List.nil_append,
      List.singleton_append]
    by_cases hd : P d = true
    · rw [List.find?_cons_of_pos _ hd]
      constructor
      · intro hQ
        exact ⟨ds, d, [], by simp, hd, hQ, by simp⟩
      · rintro ⟨pre, t, post, heq, hP, hQ, hpost⟩
        cases post using List.reverseRecOn with
        | nil =>
          have hdt : d = t := by
            have := (List.append_inj' heq rfl).2
            simpa using this
          rw [hdt]
          exact hQ
        | append_singleton q u =>
          have heq2 : ds ++ [d] = (pre ++ t :: q) ++ [u] := by rw [heq]; simp
          have hdu : d = u := by
            have := (List.append_inj' heq2 rfl).2
            simpa using this
          have hu : P u = false := hpost u (by simp)
          rw [← hdu, hd] at hu
          exact absurd hu (by simp)
    · have hdf : P d = false := by simpa using hd
      rw [List.find?_cons_of_neg _ (by simp [hdf])]
      rw [ih]
      constructor
      · rintro ⟨pre, t, post, heq, hP, hQ, hpost⟩
        refine ⟨pre, t, post ++ [d], by rw [heq]; simp, hP, hQ, ?_⟩
        intro u hu
        rcases List.mem_append.mp hu with hu | hu
        · exact hpost u hu
        · have : u = d := by simpa using hu
          rw [this]
          exact hdf
      · rintro ⟨pre, t, post, heq, hP, hQ, hpost⟩
        cases post using List.reverseRecOn with
        | nil =>
          have hdt : d = t := by
            have := (List.append_inj' heq rfl).2
            simpa using this
          rw [← hdt] at hP
          exact absurd hP (by simp [hdf])
        | append_singleton q u =>
          have heq2 : ds ++ [d] = (pre ++ t :: q) ++ [u] := by rw [heq]; simp
          obtain ⟨h1, _⟩ := List.append_inj' heq2 rfl
          exact ⟨pre, t, q, h1, hP, hQ, fun u' hu' => hpost u' (by simp [hu'])⟩

/-- C7 (amended): the recent-loss cooldown flag fed to the Sizing Engine is
set if and only if the last-listed trade outcome with the same symbol and
side closed within the last 90 minutes with P&L ≤ -15% — the backward scan
breaks at the first match, so earlier qualifying trades are not consulted —
and it is never set when no qualifying matching trade exists. -/
theorem recentLossCooldownFlag_iff_last_match (trades : List TradeOutcome)
    (sym side : String) (now : ℤ) :
    (recentLossCooldownFlag trades sym side now = true ↔
      ∃ pre t post, trades = pre ++ t :: post ∧ t.symbol = sym ∧ t.side = side ∧
        t.pnlPct ≤ -15 ∧ now - t.closeTime < 90 * minuteNs ∧
        ∀ u ∈ post, ¬ (u.symbol = sym ∧ u.side = side)) ∧
    ((∀ t ∈ trades, ¬ (t.symbol = sym ∧ t.side = side ∧ t.pnlPct ≤ -15 ∧
        now - t.closeTime < 90 * minuteNs)) →
      recentLossCooldownFlag trades sym side now = false) := by
  have base := findLast_decomp (tradeMatches sym side)
    (fun t => decide (t.pnlPct ≤ -15) && decide (now - t.closeTime < 90 * minuteNs))
    trades
  have main : recentLossCooldownFlag trades sym side now = true ↔
      ∃ pre t post, trades = pre ++ t :: post ∧ t.symbol = sym ∧ t.side = side ∧
        t.pnlPct ≤ -15 ∧ now - t.closeTime < 90 * minuteNs ∧
        ∀ u ∈ post, ¬ (u.symbol = sym ∧ u.side = side) := by
    rw [show recentLossCooldownFlag trades sym side now =
        (match trades.reverse.find? (tradeMatches sym side) with
         | some t => decide (t.pnlPct ≤ -15) && decide (now - t.closeTime < 90 * minuteNs)
         | none => false) from rfl]
    rw [base]
    constructor
    · rintro ⟨pre, t, post, heq, hP, hQ, hpost⟩
      simp only [tradeMatches, Bool.and_eq_true, beq_iff_eq] at hP
      simp only [Bool.and_eq_true, decide_eq_true_eq] at hQ
      refine ⟨pre, t, post, heq, hP.1, hP.2, hQ.1, hQ.2, ?_⟩
      intro u hu hcon
      have h := hpost u hu
      simp only [tradeMatches, hcon.1, hcon.2] at h
      simp at h
    · rintro ⟨pre, t, post, heq, h1, h2, h3, h4, hpost⟩
      refine ⟨pre, t, post, heq, ?_, ?_, ?_⟩
      · simp [tradeMatches, h1, h2]
      · simp [h3, h4]
      · intro u hu
        have hn := hpost u hu
        simp only [tradeMatches, Bool.and_eq_false_iff]
        by_cases hs : u.symbol = sym
        · right
          by_cases hsd : u.side = side
          · exact absurd ⟨hs, hsd⟩ hn
          · simp [hsd]
        · left
          simp [hs]
  refine ⟨main, ?_⟩
  intro hnone
  cases hfl : recentLossCooldownFlag trades sym side now with
  | false => rfl
  | true =>
    obtain ⟨pre, t, post, heq, h1, h2, h3, h4, _⟩ := main.mp hfl
    have hmem : t ∈ trades := by rw [heq]; simp
    exact absurd ⟨h1, h2, h3, h4⟩ (hnone t hmem)

/-- C7 witness: with a single qualifying trade (same symbol and side,
P&L -20%, closed 80 minutes ago) the flag is set; the decomposition of the
amended claim is exhibited at this input. -/
theorem recentLossCooldownFlag_iff_last_match_witness :
    recentLossCooldownFlag [⟨"BTCUSDT", "long", -20, 20 * minuteNs⟩]
      "BTCUSDT" "long" (100 * minuteNs) = true := by
  have h := (recentLossCooldownFlag_iff_last_match
    [⟨"BTCUSDT", "long", -20, 20 * minuteNs⟩] "BTCUSDT" "long" (100 * minuteNs)).1
  refine h.mpr ⟨[], ⟨"BTCUSDT", "long", -20, 20 * minuteNs⟩, [], by simp, rfl, rfl,
    by norm_num, ?_, by simp⟩
  have : (100 : ℤ) * minuteNs - 20 * minuteNs = 80 * minuteNs := by ring
  rw [this]
  norm_num [minuteNs]

/-- C7 counterexample: the claim as stated says the flag is set whenever ANY
matching trade qualifies; here the older trade (-20% P&L, 80 minutes ago)
qualifies, but the scan only inspects the most recently listed matching
trade (+5% P&L), so the flag stays unset. -/
theorem recentLossCooldownFlag_any_counterexample :
    recentLossCooldownFlag
      [⟨"BTCUSDT", "long", -20, 20 * minuteNs⟩,
       ⟨"BTCUSDT", "long", 5, 99 * minuteNs⟩]
      "BTCUSDT" "long" (100 * minuteNs) = false ∧
    (⟨"BTCUSDT", "long", -20, 20 * minuteNs⟩ : TradeOutcome) ∈
      [(⟨"BTCUSDT", "long", -20, 20 * minuteNs⟩ : TradeOutcome),
       ⟨"BTCUSDT", "long", 5, 99 * minuteNs⟩] ∧
    (⟨"BTCUSDT", "long", -20, 20 * minuteNs⟩ : TradeOutcome).symbol = "BTCUSDT" ∧
    (⟨"BTCUSDT", "long", -20, 20 * minuteNs⟩ : TradeOutcome).side = "long" ∧
    (⟨"BTCUSDT", "long", -20, 20 * minuteNs⟩ : TradeOutcome).pnlPct ≤ -15 ∧
    100 * minuteNs - (⟨"BTCUSDT", "long", -20, 20 * minuteNs⟩ : TradeOutcome).closeTime <
      90 * minuteNs := by
  refine ⟨?_, by simp, rfl, rfl, by norm_num, by norm_num [minuteNs]⟩
  decide

theorem validateDecisions_isSome_of_mem (ds : List Decision) (accountEquity : ℚ)
    (btcEthLeverage altcoinLeverage : ℤ) (mkt : List (String × MarketData))
    (h : ∃ d ∈ ds, (validateDecision d accountEquity btcEthLeverage altcoinLeverage mkt).isSome) :
    (validateDecisions ds accountEquity btcEthLeverage altcoinLeverage mkt).isSome := by
  induction ds with
  | nil => simp at h
  | cons d rest ih =>
    obtain ⟨x, hx, hxs⟩ := h
    simp only [validateDecisions]
    cases hv : validateDecision d accountEquity btcEthLeverage altcoinLeverage mkt with
    | some e => simp
    | none =>
      rcases List.mem_cons.mp hx with hx' | hx'
      · rw [hx', hv] at hxs
        simp at hxs
      · exact ih ⟨x, hx', hxs⟩

/-- C2: if any single decision in a parsed batch fails validation, the whole
batch is rejected — validateDecisions returns an error, the cycle executes
none of the decisions of that response, and the error together with the
recovered reasoning trace is still recorded. -/
theorem invalidDecision_failsClosed (ds : List Decision) (cot : String)
    (accountEquity : ℚ) (btcEthLeverage altcoinLeverage : ℤ)
    (mkt : List (String × MarketData))
    (h : ∃ d ∈ ds, (validateDecision d accountEquity btcEthLeverage altcoinLeverage mkt).isSome) :
    (validateDecisions ds accountEquity btcEthLeverage altcoinLeverage mkt).isSome ∧
    (runCycleDecisionPhase (Except.ok ds) cot accountEquity btcEthLeverage
        altcoinLeverage mkt).executed = [] ∧
    ((runCycleDecisionPhase (Except.ok ds) cot accountEquity btcEthLeverage
        altcoinLeverage mkt).recordError).isSome ∧
    (runCycleDecisionPhase (Except.ok ds) cot accountEquity btcEthLeverage
        altcoinLeverage mkt).recordCoT = cot := by
  have hv := validateDecisions_isSome_of_mem ds accountEquity btcEthLeverage
    altcoinLeverage mkt h
  obtain ⟨e, he⟩ := Option.isSome_iff_exists.mp hv
  refine ⟨hv, ?_, ?_, ?_⟩ <;> simp [runCycleDecisionPhase, he]

/-- C2 witness: a batch whose single decision has the unknown action "fly"
is rejected whole — nothing executes, the error and the trace are
recorded. -/
theorem invalidDecision_failsClosed_witness :
    (∃ d ∈ [mkDecision "BTCUSDT" "fly"],
      (validateDecision d 1000 5 10 []).isSome) ∧
    (validateDecisions [mkDecision "BTCUSDT" "fly"] 1000 5 10 []).isSome ∧
    (runCycleDecisionPhase (Except.ok [mkDecision "BTCUSDT" "fly"]) "trace"
      1000 5 10 []).executed = [] ∧
    ((runCycleDecisionPhase (Except.ok [mkDecision "BTCUSDT" "fly"]) "trace"
      1000 5 10 []).recordError).isSome ∧
    (runCycleDecisionPhase (Except.ok [mkDecision "BTCUSDT" "fly"]) "trace"
      1000 5 10 []).recordCoT = "trace" :=
  ⟨⟨mkDecision "BTCUSDT" "fly", by simp, by decide⟩,
   invalidDecision_failsClosed [mkDecision "BTCUSDT" "fly"] "trace" 1000 5 10 []
     ⟨mkDecision "BTCUSDT" "fly", by simp, by decide⟩⟩

/-- The raw model response of the spec's parser example: the decisions object
wrapped in a ```json fenced code block. -/
def fencedHoldResponse : String :=
  "```json\n\x7b\"decisions\":[\x7b\"symbol\":\"BTCUSDT\",\"action\":\"hold\",\"reasoning\":\"x\"\x7d]\x7d\n```"

/-- C5: parsing the fenced response succeeds and yields exactly one decision,
whose action is "hold" (its symbol and reasoning are the wrapped values and
every other field is the Go zero value). -/
theorem fencedHoldResponse_parses :
    extractDecisionsStrict fencedHoldResponse.toList =
      Except.ok [{ zeroDecision with
        symbol := "BTCUSDT", action := "hold", reasoning := "x" }] ∧
    ({ zeroDecision with
        symbol := "BTCUSDT", action := "hold", reasoning := "x" } : Decision).action = "hold" :=
  ⟨rfl, rfl⟩

end NofxLite
